import Mathlib

/-!
Verification development for the strax plugin module (`strax/plugin.py`).

The Python module is shallowly embedded:

* a numpy structured dtype is modelled by its ordered field list
  (`NpDtype`); `dtype.names` is the list of field names and the external
  collaborator `strax.unpack_dtype` returns the field list;
* a plugin instance is modelled by the metadata the module reads from it:
  `depends_on` (ordered dependency names), the per-dependency kind and
  dtype maps, and the `multiprocess` flag;
* Python dicts keyed by data kind are modelled as association lists in
  key-insertion order, matching `dict.items()` iteration order;
* raised exceptions are modelled with `Except String`;
* iterators over chunk streams are modelled as lists of chunks, with
  `next` taking the head; external chunk-alignment collaborators
  (`strax.chunk_arrays`) and the executor are opaque parameters.
-/

abbrev Dep := String

abbrev Kind := String

/-- A numpy structured dtype, modelled as its ordered list of
(field name, field type) pairs. -/
structure NpDtype where
  fields : List (String × String)
deriving Repr, DecidableEq

/-- `dtype.names`: the ordered field names of a structured dtype. -/
def NpDtype.names (dt : NpDtype) : List String :=
  dt.fields.map Prod.fst

/-- External collaborator `strax.unpack_dtype`: the field list of a dtype. -/
def unpack_dtype (dt : NpDtype) : List (String × String) :=
  dt.fields

/-- The metadata of a `StraxPlugin` instance that `plugin.py` reads:
`depends_on`, `dependency_kinds`, `dependency_dtypes`, `multiprocess`. -/
structure StraxPlugin where
  depends_on : List Dep
  dependency_kinds : Dep → Kind
  dependency_dtypes : Dep → NpDtype
  multiprocess : Bool := false

/-- `'time' in self.dependency_dtypes[d].names`. -/
def hasTime (p : StraxPlugin) (d : Dep) : Bool :=
  (p.dependency_dtypes d).names.contains "time"

/-- Whether dependency `d` is treated as time-bearing by
`dependencies_by_kind`: `require_time and 'time' in ...names`. -/
def tbDep (p : StraxPlugin) (require_time : Bool) (d : Dep) : Bool :=
  require_time && hasTime p d

/-- `dict.setdefault(k, [])` on an insertion-ordered dict of buckets:
if `k` is absent, append `(k, [])` at the end. -/
def setdefault (k : Kind) (B : List (Kind × List Dep)) : List (Kind × List Dep) :=
  if B.any (fun kv => kv.1 = k) then B else B ++ [(k, [])]

/-- Replace the bucket stored under key `k` by `f` of it (key order kept);
models `deps_by_kind[k].insert(0, d)` / `deps_by_kind[k].append(d)`. -/
def bucketUpdate (k : Kind) (f : List Dep → List Dep) :
    List (Kind × List Dep) → List (Kind × List Dep)
  | [] => []
  | kv :: rest =>
    if kv.1 = k then (kv.1, f kv.2) :: rest else kv :: bucketUpdate k f rest

/-- One iteration of the `for d in self.depends_on` loop of
`StraxPlugin.dependencies_by_kind`: `setdefault`, then either insert `d`
at the front of its kind's bucket and append it to `key_deps` (time case)
or append it at the back of the bucket. -/
def classifyStep (p : StraxPlugin) (require_time : Bool)
    (acc : List (Kind × List Dep) × List Dep) (d : Dep) :
    List (Kind × List Dep) × List Dep :=
  let k := p.dependency_kinds d
  let B := setdefault k acc.1
  if tbDep p require_time d then
    (bucketUpdate k (fun l => d :: l) B, acc.2 ++ [d])
  else
    (bucketUpdate k (fun l => l ++ [d]) B, acc.2)

/-- The bucketing loop of `dependencies_by_kind`: fold `classifyStep`
over `depends_on`, producing `(deps_by_kind, key_deps)`. -/
def classifyFold (p : StraxPlugin) (require_time : Bool) :
    List (Kind × List Dep) × List Dep :=
  p.depends_on.foldl (classifyStep p require_time) ([], [])

/-- The `ValueError` message raised when a kind has no time information. -/
def timeErrMsg (k : Kind) : String :=
  "No dependency of data kind " ++ k ++ " has time information!"

/-- `StraxPlugin.dependencies_by_kind`: bucket the dependencies by kind,
then (when `require_time`) fail on the first kind, in key-insertion
order, whose bucket does not start with a recorded time-bearing
dependency. -/
def dependencies_by_kind (p : StraxPlugin) (require_time : Bool) :
    Except String (List (Kind × List Dep)) :=
  let r := classifyFold p require_time
  if require_time then
    match r.1.find? (fun kv => !(r.2.contains (kv.2.headD ""))) with
    | some kv => .error (timeErrMsg kv.1)
    | none => .ok r.1
  else
    .ok r.1

/-- The dependencies of `p` having kind `k`, in declaration order. -/
def depsOfKind (p : StraxPlugin) (k : Kind) : List Dep :=
  p.depends_on.filter (fun d => p.dependency_kinds d = k)

/-- Time-bearing dependencies of kind `k` among a declaration prefix. -/
def timeDepsIn (p : StraxPlugin) (rt : Bool) (ds : List Dep) (k : Kind) : List Dep :=
  ds.filter (fun d => p.dependency_kinds d = k ∧ tbDep p rt d)

/-- Non-time-bearing dependencies of kind `k` among a declaration prefix. -/
def plainDepsIn (p : StraxPlugin) (rt : Bool) (ds : List Dep) (k : Kind) : List Dep :=
  ds.filter (fun d => p.dependency_kinds d = k ∧ ¬ tbDep p rt d)

/-- The bucket contents the classifier produces for kind `k` after
processing declarations `ds`: the time-bearing dependencies in reverse
declaration order, then the others in declaration order. -/
def bucketSpec (p : StraxPlugin) (rt : Bool) (ds : List Dep) (k : Kind) : List Dep :=
  (timeDepsIn p rt ds k).reverse ++ plainDepsIn p rt ds k

/-- Invariant of the bucketing loop after processing the declaration
prefix `processed`: bucket keys are exactly the kinds seen, without
duplicates; each bucket holds `bucketSpec`; `key_deps` collects the
time-bearing dependencies in order. -/
def ClassifyInv (p : StraxPlugin) (rt : Bool) (processed : List Dep)
    (B : List (Kind × List Dep)) (K : List Dep) : Prop :=
  (B.map Prod.fst).Nodup ∧
  (∀ k, k ∈ B.map Prod.fst ↔ k ∈ processed.map p.dependency_kinds) ∧
  (∀ kv ∈ B, kv.2 = bucketSpec p rt processed kv.1) ∧
  K = processed.filter (tbDep p rt)

/-- The external collaborators from `strax.chunk_arrays` used by
`StraxPlugin.iter`, kept opaque: `fixed_length_chunks`, and the two
`sync_iters` instantiations (`same_stop` on `endtime`, `same_length`).
A `sync_iters` call receives the sub-dict to synchronize and returns the
replacement iterator for each of its keys. -/
structure ChunkArraysCollab (Chunk : Type) where
  fixed_length_chunks : List Chunk → Nat → List Chunk
  sync_iters_time : List (Dep × List Chunk) → Dep → List Chunk
  sync_iters_length : List (Dep × List Chunk) → Dep → List Chunk

/-- The `n_per_iter` flow-control step of `StraxPlugin.iter`: for the
first kind group only (the loop `break`s after one iteration), replace
the iterator of the group's first dependency by its rechunked version.
The inner `[]` cases are unreachable: `dependencies_by_kind` never
returns an empty bucket, and the loop body does not run when there are
no kind groups. -/
def flowControl {Chunk : Type} (C : ChunkArraysCollab Chunk) (n_per_iter : Option Nat)
    (deps_by_kind : List (Kind × List Dep)) (iters : Dep → List Chunk) :
    Dep → List Chunk :=
  match n_per_iter with
  | none => iters
  | some n =>
    match deps_by_kind with
    | [] => iters
    | (_, deps) :: _ =>
      match deps with
      | [] => iters
      | d0 :: _ => fun d => if d = d0 then C.fixed_length_chunks (iters d) n else iters d

/-- `iters.update(newIters)` where `newIters` was produced for `keys`. -/
def updateIters {Chunk : Type} (iters : Dep → List Chunk) (keys : List Dep)
    (newIters : Dep → List Chunk) : Dep → List Chunk :=
  fun d => if keys.contains d then newIters d else iters d

/-- One evaluation of `{d: next(iters[d]) for d in self.depends_on}`:
pull one chunk per dependency in declaration order, advancing each
iterator as it is consumed; `none` when some `next` raises
`StopIteration` (the already-advanced iterators are returned either way,
as in Python, though the caller then stops). -/
def pullBatch {Chunk : Type} (ds : List Dep) (iters : Dep → List Chunk) :
    Option (List (Dep × Chunk)) × (Dep → List Chunk) :=
  match ds with
  | [] => (some [], iters)
  | d :: rest =>
    match iters d with
    | [] => (none, iters)
    | c :: cs =>
      let r := pullBatch rest (fun d2 => if d2 = d then cs else iters d2)
      (r.1.map (fun b => (d, c) :: b), r.2)

/-- One item yielded by `StraxPlugin.iter`: either the pending handle of
`executor.submit(self.compute, **kwargs)` or the inline result of
`self.compute(**kwargs)`; both are represented by the batch passed to
`compute`, the computation itself being plugin-specific. -/
inductive IterOut (Chunk : Type) where
  | submitted (kwargs : List (Dep × Chunk))
  | computed (kwargs : List (Dep × Chunk))
deriving Repr, DecidableEq

/-- The batch an output item was built from. -/
def IterOut.kwargs {Chunk : Type} : IterOut Chunk → List (Dep × Chunk)
  | .submitted b => b
  | .computed b => b

/-- Whether an output item is a pending handle. -/
def IterOut.isSubmitted {Chunk : Type} : IterOut Chunk → Bool
  | .submitted _ => true
  | .computed _ => false

/-- The `while True` pull/compute/yield loop of `StraxPlugin.iter`,
with explicit fuel (the Python loop is unbounded; every theorem about
it quantifies over sufficient fuel). -/
def iterLoop {Chunk : Type} (ds : List Dep) (multiprocess hasExecutor : Bool)
    (fuel : Nat) (iters : Dep → List Chunk) : List (IterOut Chunk) :=
  match fuel with
  | 0 => []
  | fuel + 1 =>
    match pullBatch ds iters with
    | (none, _) => []
    | (some b, iters2) =>
      (if multiprocess && hasExecutor then .submitted b else .computed b) ::
        iterLoop ds multiprocess hasExecutor fuel iters2

/-- The sequence of batches the loop assembles, without the
dispatch decision. -/
def assembledBatches {Chunk : Type} (ds : List Dep) (fuel : Nat)
    (iters : Dep → List Chunk) : List (List (Dep × Chunk)) :=
  match fuel with
  | 0 => []
  | fuel + 1 =>
    match pullBatch ds iters with
    | (none, _) => []
    | (some b, iters2) => b :: assembledBatches ds fuel iters2

/-- `StraxPlugin.iter`: classify dependencies, apply the flow-control
rechunk, the cross-kind time sync, and the within-kind length sync, then
run the pull/compute/yield loop. `hasExecutor` is `executor is not None`. -/
def iter {Chunk : Type} (C : ChunkArraysCollab Chunk) (p : StraxPlugin)
    (iters : Dep → List Chunk) (n_per_iter : Option Nat) (hasExecutor : Bool)
    (fuel : Nat) : Except String (List (IterOut Chunk)) :=
  match dependencies_by_kind p true with
  | .error e => .error e
  | .ok deps_by_kind =>
    let iters1 := flowControl C n_per_iter deps_by_kind iters
    let iters2 :=
      if 1 < deps_by_kind.length then
        let canon := deps_by_kind.map (fun kv => kv.2.headD "")
        updateIters iters1 canon (C.sync_iters_time (canon.map (fun d => (d, iters1 d))))
      else iters1
    let iters3 := deps_by_kind.foldl
      (fun it kv =>
        if 1 < kv.2.length then
          updateIters it kv.2 (C.sync_iters_length (kv.2.map (fun d => (d, it d))))
        else it) iters2
    .ok (iterLoop p.depends_on p.multiprocess hasExecutor fuel iters3)

/-- The external collaborators used by `LoopPlugin.compute`:
`strax.merge_arrs` and `strax.split_by_containment`, kept opaque.
Records are opaque; callback return values are modelled as
field-name-to-integer mappings. -/
structure LoopCollab (Rec : Type) where
  merge_arrs : List (List Rec) → List Rec
  split_by_containment : List Rec → List Rec → List (List Rec)

/-- The kind looped over: `self.loop_over` when the attribute exists,
else the kind of the first dependency. -/
def loopOverKind (p : StraxPlugin) (loop_over : Option Kind) : Kind :=
  loop_over.getD (p.dependency_kinds (p.depends_on.headD ""))

/-- `things_by_kind`: per kind group, merge the arrays of its
dependencies. -/
def thingsByKind {Rec : Type} (C : LoopCollab Rec) (buckets : List (Kind × List Dep))
    (kwargs : Dep → List Rec) : List (Kind × List Rec) :=
  buckets.map (fun kv => (kv.1, C.merge_arrs (kv.2.map kwargs)))

/-- The non-loop kinds' merged records partitioned against the base by
containment (`things_by_kind[k] = strax.split_by_containment(things, base)`
for every `k != loop_over`), in kind-group order. -/
def splitThings {Rec : Type} (C : LoopCollab Rec) (things : List (Kind × List Rec))
    (loopKind : Kind) (base : List Rec) : List (Kind × List (List Rec)) :=
  things.filterMap (fun kv =>
    if kv.1 = loopKind then none
    else some (kv.1, C.split_by_containment kv.2 base))

/-- The keyword arguments passed to `compute_loop` for base row `i`:
per non-loop kind, its `i`-th contained sub-sequence. -/
def rowKwargs {Rec : Type} (sub : List (Kind × List (List Rec))) (i : Nat) :
    List (Kind × List Rec) :=
  sub.map (fun kv => (kv.1, kv.2.getD i []))

/-- The `for k, v in r.items(): results[i][k] = v` write-back: set each
mapped field of an output record, other fields untouched. -/
def writeFields (r : String → Int) (m : List (String × Int)) : String → Int :=
  m.foldl (fun acc kv => fun f => if f = kv.1 then kv.2 else acc f) r

/-- The `results` array of `LoopPlugin.compute`: zero-initialized, one
record per base row, row `i` filled from `compute_loop` on base row `i`. -/
def loopResults {Rec : Type}
    (compute_loop : Rec → List (Kind × List Rec) → List (String × Int))
    (sub : List (Kind × List (List Rec))) (base : List Rec) : List (String → Int) :=
  base.enum.map (fun ib => writeFields (fun _ => 0) (compute_loop ib.2 (rowKwargs sub ib.1)))

/-- `LoopPlugin.__init__`: fail unless the instance has a `depends_on`
attribute (`none` models a plugin class that never sets it). -/
def LoopPlugin_init (depends_on : Option (List Dep)) : Except String (List Dep) :=
  match depends_on with
  | none => .error "depends_on is mandatory for LoopPlugin"
  | some ds => .ok ds

/-- `LoopPlugin.compute`: classify, merge per kind, split the non-loop
kinds against the base by containment, then assemble one output record
per base row from the `compute_loop` callback. A missing `loop_over`
kind is Python's `KeyError`. -/
def LoopPlugin_compute {Rec : Type} (C : LoopCollab Rec) (p : StraxPlugin)
    (loop_over : Option Kind)
    (compute_loop : Rec → List (Kind × List Rec) → List (String × Int))
    (kwargs : Dep → List Rec) : Except String (List (String → Int)) :=
  match dependencies_by_kind p true with
  | .error e => .error e
  | .ok buckets =>
    let lk := loopOverKind p loop_over
    let things := thingsByKind C buckets kwargs
    match List.lookup lk things with
    | none => .error ("KeyError: " ++ lk)
    | some base =>
      .ok (loopResults compute_loop (splitThings C things lk base) base)

/-- Rendering of one kind group inside the `MergePlugin` error message. -/
def showBucket (kv : Kind × List Dep) : String :=
  kv.1 ++ ": [" ++ String.intercalate ", " kv.2 ++ "]"

/-- Rendering of `str(deps_by_kind)` inside the `MergePlugin` error
message: every kind group, in key order. -/
def showBuckets : List (Kind × List Dep) → String
  | [] => ""
  | [kv] => showBucket kv
  | kv :: rest => showBucket kv ++ ", " ++ showBuckets rest

/-- The `ValueError` message of `MergePlugin.infer_dtype` on multiple
kinds, carrying the rendered kind groups. -/
def mergeErrMsg (buckets : List (Kind × List Dep)) : String :=
  "MergePlugins can only merge data of the same kind, but got multiple kinds: "
    ++ showBuckets buckets

/-- `MergePlugin.infer_dtype`: classify; fail unless exactly one kind;
else concatenate the unpacked dtypes of the dependencies in declaration
order (`sum([...], [])`). -/
def MergePlugin_infer_dtype (p : StraxPlugin) :
    Except String (List (String × String)) :=
  match dependencies_by_kind p true with
  | .error e => .error e
  | .ok buckets =>
    if buckets.length ≠ 1 then .error (mergeErrMsg buckets)
    else .ok (p.depends_on.map (fun d => unpack_dtype (p.dependency_dtypes d))).flatten

/-! ## Concrete instances used to evaluate the theorems -/

/-- A plugin with one time-bearing dependency of one kind. -/
def pluginA : StraxPlugin where
  depends_on := ["a"]
  dependency_kinds := fun _ => "k"
  dependency_dtypes := fun _ => ⟨[("time", "i8"), ("x", "f8")]⟩

/-- A plugin with two dependencies of one kind, both time-bearing. -/
def pluginAB : StraxPlugin where
  depends_on := ["a", "b"]
  dependency_kinds := fun _ => "k"
  dependency_dtypes := fun _ => ⟨[("time", "i8")]⟩

/-- A two-kind plugin whose second kind has no time-bearing dependency. -/
def pluginNoTimeKind : StraxPlugin where
  depends_on := ["a", "b"]
  dependency_kinds := fun d => if d = "a" then "k1" else "k2"
  dependency_dtypes := fun d => if d = "a" then ⟨[("time", "i8")]⟩ else ⟨[("y", "f8")]⟩

/-- A two-kind plugin with a time-bearing dependency in each kind. -/
def pluginTwoKindsTime : StraxPlugin where
  depends_on := ["a", "b"]
  dependency_kinds := fun d => if d = "a" then "k1" else "k2"
  dependency_dtypes := fun _ => ⟨[("time", "i8")]⟩

/-- A one-kind plugin with exactly one time-bearing dependency, declared
in the middle. -/
def pluginOneTime : StraxPlugin where
  depends_on := ["a", "t", "b"]
  dependency_kinds := fun _ => "k"
  dependency_dtypes := fun d =>
    if d = "t" then ⟨[("time", "i8")]⟩ else ⟨[("x", "f8")]⟩

/-- A one-kind plugin with two time-bearing dependencies. -/
def pluginTwoTimes : StraxPlugin where
  depends_on := ["t1", "a", "t2"]
  dependency_kinds := fun _ => "k"
  dependency_dtypes := fun d =>
    if d = "a" then ⟨[("x", "f8")]⟩ else ⟨[("time", "i8")]⟩

/-- A one-kind merge plugin with field lists (time, a) then (b). -/
def pluginMergeTwo : StraxPlugin where
  depends_on := ["u", "v"]
  dependency_kinds := fun _ => "k"
  dependency_dtypes := fun d =>
    if d = "u" then ⟨[("time", "i8"), ("a", "f8")]⟩ else ⟨[("b", "f8")]⟩

/-- Trivial chunk-alignment collaborators over `Nat` chunks. -/
def collabNat : ChunkArraysCollab Nat where
  fixed_length_chunks := fun l _ => l
  sync_iters_time := fun _ _ => []
  sync_iters_length := fun _ _ => []

/-- Concrete dependency iterators of unequal length. -/
def itersAB : Dep → List Nat := fun d => if d = "a" then [10, 11] else [20, 21, 22]

/-- Trivial loop collaborators over `Int` records. -/
def loopCollabInt : LoopCollab Int where
  merge_arrs := fun ls => ls.flatten
  split_by_containment := fun things base => base.map (fun _ => things)

/-- Concrete per-dependency record arrays. -/
def kwargsA : Dep → List Int := fun _ => [5, 7]

/-- A concrete per-row callback writing one field. -/
def clW : Int → List (Kind × List Int) → List (String × Int) := fun b _ => [("x", b)]

/-! ## Basic lemmas about the classifier's bucket operations -/

theorem setdefault_of_mem {k : Kind} {B : List (Kind × List Dep)}
    (h : k ∈ B.map Prod.fst) : setdefault k B = B := by
  unfold setdefault
  have hany : B.any (fun kv => kv.1 = k) = true := by
    rw [List.any_eq_true]
    obtain ⟨kv, hkv, he⟩ := List.mem_map.mp h
    exact ⟨kv, hkv, by simp [he]⟩
  simp [hany]

theorem setdefault_of_not_mem {k : Kind} {B : List (Kind × List Dep)}
    (h : k ∉ B.map Prod.fst) : setdefault k B = B ++ [(k, [])] := by
  unfold setdefault
  have hany : B.any (fun kv => kv.1 = k) = false := by
    rw [Bool.eq_false_iff]
    intro hc
    rw [List.any_eq_true] at hc
    obtain ⟨kv, hkv, he⟩ := hc
    exact h (List.mem_map.mpr ⟨kv, hkv, by simpa using he⟩)
  simp [hany]

theorem map_fst_bucketUpdate (k : Kind) (f : List Dep → List Dep) :
    ∀ B : List (Kind × List Dep), (bucketUpdate k f B).map Prod.fst = B.map Prod.fst := by
  intro B
  induction B with
  | nil => rfl
  | cons kv rest ih =>
    rw [bucketUpdate]
    by_cases h : kv.1 = k <;> simp [h, ih]

theorem mem_bucketUpdate {k : Kind} {f : List Dep → List Dep} :
    ∀ {B : List (Kind × List Dep)} {kv : Kind × List Dep},
      (B.map Prod.fst).Nodup → kv ∈ bucketUpdate k f B →
      (kv ∈ B ∧ kv.1 ≠ k) ∨ (∃ l, (k, l) ∈ B ∧ kv = (k, f l)) := by
  intro B
  induction B with
  | nil => intro kv _ h; cases h
  | cons hd rest ih =>
    intro kv hnd h
    rw [bucketUpdate] at h
    rw [List.map_cons, List.nodup_cons] at hnd
    by_cases he : hd.1 = k
    · rw [if_pos he] at h
      rcases List.mem_cons.mp h with h1 | h2
      · right
        exact ⟨hd.2, by rw [← he]; exact List.mem_cons_self _ _, by rw [h1, he]⟩
      · left
        refine ⟨List.mem_cons_of_mem _ h2, fun hk => ?_⟩
        exact hnd.1 (he ▸ hk ▸ List.mem_map.mpr ⟨kv, h2, rfl⟩)
    · rw [if_neg he] at h
      rcases List.mem_cons.mp h with h1 | h2
      · left
        exact ⟨h1 ▸ List.mem_cons_self _ _, h1 ▸ he⟩
      · rcases ih hnd.2 h2 with ⟨hm, hne⟩ | ⟨l, hl, hkv⟩
        · exact Or.inl ⟨List.mem_cons_of_mem _ hm, hne⟩
        · exact Or.inr ⟨l, List.mem_cons_of_mem _ hl, hkv⟩

/-! ## Snoc lemmas for the per-kind bucket contents -/

theorem bucketSpec_snoc_time {p : StraxPlugin} {rt : Bool} {d : Dep}
    (htb : tbDep p rt d = true) (ds : List Dep) :
    bucketSpec p rt (ds ++ [d]) (p.dependency_kinds d) =
      d :: bucketSpec p rt ds (p.dependency_kinds d) := by
  unfold bucketSpec timeDepsIn plainDepsIn
  rw [List.filter_append, List.filter_append]
  simp [htb]

theorem bucketSpec_snoc_plain {p : StraxPlugin} {rt : Bool} {d : Dep}
    (htb : tbDep p rt d = false) (ds : List Dep) :
    bucketSpec p rt (ds ++ [d]) (p.dependency_kinds d) =
      bucketSpec p rt ds (p.dependency_kinds d) ++ [d] := by
  unfold bucketSpec timeDepsIn plainDepsIn
  rw [List.filter_append, List.filter_append]
  simp [htb]

theorem bucketSpec_snoc_ne {p : StraxPlugin} {rt : Bool} {d : Dep} {k : Kind}
    (hk : p.dependency_kinds d ≠ k) (ds : List Dep) :
    bucketSpec p rt (ds ++ [d]) k = bucketSpec p rt ds k := by
  unfold bucketSpec timeDepsIn plainDepsIn
  rw [List.filter_append, List.filter_append]
  simp [hk]

theorem bucketSpec_of_not_mem {p : StraxPlugin} {rt : Bool} {ds : List Dep} {k : Kind}
    (h : k ∉ ds.map p.dependency_kinds) : bucketSpec p rt ds k = [] := by
  unfold bucketSpec timeDepsIn plainDepsIn
  have hk : ∀ d ∈ ds, p.dependency_kinds d ≠ k := by
    intro d hd he
    exact h (List.mem_map.mpr ⟨d, hd, he⟩)
  rw [List.filter_eq_nil_iff.mpr (by intro d hd; simp [hk d hd]),
    List.filter_eq_nil_iff.mpr (by intro d hd; simp [hk d hd])]
  rfl

/-! ## The bucketing-loop invariant -/

theorem classifyInv_nil (p : StraxPlugin) (rt : Bool) : ClassifyInv p rt [] [] [] := by
  refine ⟨List.nodup_nil, ?_, ?_, rfl⟩
  · intro k; simp
  · intro kv hkv; cases hkv

theorem classifyInv_step {p : StraxPlugin} {rt : Bool} {pre : List Dep}
    {B : List (Kind × List Dep)} {K : List Dep}
    (h : ClassifyInv p rt pre B K) (d : Dep) :
    ClassifyInv p rt (pre ++ [d])
      (classifyStep p rt (B, K) d).1 (classifyStep p rt (B, K) d).2 := by
  obtain ⟨hnd, hmem, hval, hK⟩ := h
  have hsd : ∀ kv ∈ setdefault (p.dependency_kinds d) B,
      kv ∈ B ∨ (kv = (p.dependency_kinds d, []) ∧ p.dependency_kinds d ∉ B.map Prod.fst) := by
    intro kv hkv
    by_cases hin : p.dependency_kinds d ∈ B.map Prod.fst
    · rw [setdefault_of_mem hin] at hkv; exact Or.inl hkv
    · rw [setdefault_of_not_mem hin] at hkv
      rcases List.mem_append.mp hkv with h1 | h2
      · exact Or.inl h1
      · exact Or.inr ⟨List.mem_singleton.mp h2, hin⟩
  have hsdmap : (setdefault (p.dependency_kinds d) B).map Prod.fst =
      if p.dependency_kinds d ∈ B.map Prod.fst then B.map Prod.fst
      else B.map Prod.fst ++ [p.dependency_kinds d] := by
    by_cases hin : p.dependency_kinds d ∈ B.map Prod.fst
    · rw [setdefault_of_mem hin, if_pos hin]
    · rw [setdefault_of_not_mem hin, if_neg hin]; simp
  have hsdnd : ((setdefault (p.dependency_kinds d) B).map Prod.fst).Nodup := by
    rw [hsdmap]
    by_cases hin : p.dependency_kinds d ∈ B.map Prod.fst
    · simpa [hin] using hnd
    · simp only [if_neg hin]
      exact List.Nodup.append hnd (List.nodup_singleton _)
        (by simpa [List.disjoint_singleton] using hin)
  have hsdval : ∀ kv ∈ setdefault (p.dependency_kinds d) B,
      kv.2 = bucketSpec p rt pre kv.1 := by
    intro kv hkv
    rcases hsd kv hkv with h1 | ⟨h2, hnin⟩
    · exact hval kv h1
    · rw [h2]
      exact (bucketSpec_of_not_mem (fun hc => hnin ((hmem _).mpr hc))).symm
  have hsdmem : ∀ k', k' ∈ (setdefault (p.dependency_kinds d) B).map Prod.fst ↔
      k' ∈ B.map Prod.fst ∨ k' = p.dependency_kinds d := by
    intro k'
    rw [hsdmap]
    by_cases hin : p.dependency_kinds d ∈ B.map Prod.fst
    · rw [if_pos hin]
      constructor
      · exact Or.inl
      · rintro (h1 | rfl)
        · exact h1
        · exact hin
    · rw [if_neg hin]
      simp
  have hmem2 : ∀ k', k' ∈ (pre ++ [d]).map p.dependency_kinds ↔
      k' ∈ B.map Prod.fst ∨ k' = p.dependency_kinds d := by
    intro k'
    rw [List.map_append, List.mem_append, hmem]
    simp [eq_comm]
  cases htb : tbDep p rt d with
  | true =>
    have hstep : classifyStep p rt (B, K) d =
        (bucketUpdate (p.dependency_kinds d) (fun l => d :: l)
          (setdefault (p.dependency_kinds d) B), K ++ [d]) := by
      simp [classifyStep, htb]
    rw [hstep]
    refine ⟨?_, ?_, ?_, ?_⟩
    · rw [map_fst_bucketUpdate]; exact hsdnd
    · intro k'
      rw [map_fst_bucketUpdate, hsdmem, hmem2]
    · intro kv hkv
      rcases mem_bucketUpdate hsdnd hkv with ⟨hm, hne⟩ | ⟨l, hl, hkv2⟩
      · rw [hsdval kv hm]
        exact (bucketSpec_snoc_ne (fun hc => hne (by rw [← hc])) pre).symm
      · have hl2 : l = bucketSpec p rt pre (p.dependency_kinds d) :=
          hsdval (p.dependency_kinds d, l) hl
      -- kv = (k, d :: l)
        rw [hkv2]
        simp only
        rw [hl2, bucketSpec_snoc_time htb]
    · rw [hK, List.filter_append]
      simp [htb]
  | false =>
    have hstep : classifyStep p rt (B, K) d =
        (bucketUpdate (p.dependency_kinds d) (fun l => l ++ [d])
          (setdefault (p.dependency_kinds d) B), K) := by
      simp [classifyStep, htb]
    rw [hstep]
    refine ⟨?_, ?_, ?_, ?_⟩
    · rw [map_fst_bucketUpdate]; exact hsdnd
    · intro k'
      rw [map_fst_bucketUpdate, hsdmem, hmem2]
    · intro kv hkv
      rcases mem_bucketUpdate hsdnd hkv with ⟨hm, hne⟩ | ⟨l, hl, hkv2⟩
      · rw [hsdval kv hm]
        exact (bucketSpec_snoc_ne (fun hc => hne (by rw [← hc])) pre).symm
      · have hl2 : l = bucketSpec p rt pre (p.dependency_kinds d) :=
          hsdval (p.dependency_kinds d, l) hl
        rw [hkv2]
        simp only
        rw [hl2, bucketSpec_snoc_plain htb]
    · rw [hK, List.filter_append]
      simp [htb]

theorem classifyInv_foldl {p : StraxPlugin} {rt : Bool} :
    ∀ (suffix pre : List Dep) (B : List (Kind × List Dep)) (K : List Dep),
      ClassifyInv p rt pre B K →
      ClassifyInv p rt (pre ++ suffix)
        ((suffix.foldl (classifyStep p rt) (B, K)).1)
        ((suffix.foldl (classifyStep p rt) (B, K)).2) := by
  intro suffix
  induction suffix with
  | nil => intro pre B K h; simpa using h
  | cons d rest ih =>
    intro pre B K h
    have h1 := classifyInv_step h d
    have h2 := ih (pre ++ [d]) _ _ h1
    simpa [List.append_assoc] using h2

theorem classifyInv_main (p : StraxPlugin) (rt : Bool) :
    ClassifyInv p rt p.depends_on (classifyFold p rt).1 (classifyFold p rt).2 := by
  have h := classifyInv_foldl p.depends_on [] [] [] (classifyInv_nil p rt)
  simpa [classifyFold] using h

/-! ## Success and failure analysis of `dependencies_by_kind` -/

theorem tbDep_true (p : StraxPlugin) (d : Dep) : tbDep p true d = hasTime p d := by
  simp [tbDep]

theorem mem_timeDepsIn {p : StraxPlugin} {rt : Bool} {ds : List Dep} {k : Kind} {d : Dep} :
    d ∈ timeDepsIn p rt ds k ↔
      d ∈ ds ∧ p.dependency_kinds d = k ∧ tbDep p rt d = true := by
  unfold timeDepsIn
  simp [List.mem_filter, and_assoc]

theorem mem_plainDepsIn {p : StraxPlugin} {rt : Bool} {ds : List Dep} {k : Kind} {d : Dep} :
    d ∈ plainDepsIn p rt ds k ↔
      d ∈ ds ∧ p.dependency_kinds d = k ∧ tbDep p rt d = false := by
  unfold plainDepsIn
  simp [List.mem_filter, and_assoc]

theorem contains_iff_mem {l : List Dep} {a : Dep} : l.contains a = true ↔ a ∈ l := by
  rw [List.contains_eq_any_beq, List.any_eq_true]
  constructor
  · rintro ⟨x, hx, he⟩
    exact (eq_of_beq he) ▸ hx
  · intro hmem
    exact ⟨a, hmem, by simp⟩

theorem bucketSpec_head_time {p : StraxPlugin} {rt : Bool} {ds : List Dep} {k : Kind}
    (h : timeDepsIn p rt ds k ≠ []) :
    ∃ t rest, bucketSpec p rt ds k = t :: rest ∧ t ∈ timeDepsIn p rt ds k ∧
      (timeDepsIn p rt ds k).getLast? = some t := by
  cases hrev : (timeDepsIn p rt ds k).reverse with
  | nil => exact absurd (List.reverse_eq_nil_iff.mp hrev) h
  | cons t rest =>
    refine ⟨t, rest ++ plainDepsIn p rt ds k, ?_, ?_, ?_⟩
    · unfold bucketSpec
      rw [hrev]
      rfl
    · have ht : t ∈ (timeDepsIn p rt ds k).reverse := by
        rw [hrev]; exact List.mem_cons_self _ _
      exact List.mem_reverse.mp ht
    · rw [← List.head?_reverse, hrev]
      rfl

theorem bucketSpec_no_time {p : StraxPlugin} {rt : Bool} {ds : List Dep} {k : Kind}
    (h : timeDepsIn p rt ds k = []) :
    bucketSpec p rt ds k = plainDepsIn p rt ds k := by
  unfold bucketSpec
  rw [h]
  rfl

theorem classify_ok_of_all_time {p : StraxPlugin}
    (h : ∀ k ∈ p.depends_on.map p.dependency_kinds,
      ∃ d ∈ p.depends_on, p.dependency_kinds d = k ∧ hasTime p d = true) :
    dependencies_by_kind p true = .ok (classifyFold p true).1 := by
  obtain ⟨hnd, hmem, hval, hK⟩ := classifyInv_main p true
  have hfind : (classifyFold p true).1.find?
      (fun kv => !((classifyFold p true).2.contains (kv.2.headD ""))) = none := by
    rw [List.find?_eq_none]
    intro kv hkv
    have hk : kv.1 ∈ p.depends_on.map p.dependency_kinds :=
      (hmem kv.1).mp (List.mem_map.mpr ⟨kv, hkv, rfl⟩)
    obtain ⟨d, hd, hkd, htime⟩ := h kv.1 hk
    have htne : timeDepsIn p true p.depends_on kv.1 ≠ [] := by
      intro hc
      have hdmem : d ∈ timeDepsIn p true p.depends_on kv.1 :=
        mem_timeDepsIn.mpr ⟨hd, hkd, by rw [tbDep_true]; exact htime⟩
      rw [hc] at hdmem
      cases hdmem
    obtain ⟨t, rest, hspec, htmem, _⟩ := bucketSpec_head_time htne
    have hkv2 : kv.2 = t :: rest := by rw [hval kv hkv, hspec]
    have htK : t ∈ (classifyFold p true).2 := by
      rw [hK]
      rw [mem_timeDepsIn] at htmem
      exact List.mem_filter.mpr ⟨htmem.1, htmem.2.2⟩
    simp [hkv2, contains_iff_mem, htK]
  unfold dependencies_by_kind
  simp only [if_true, hfind]

theorem classify_error_of_missing_time {p : StraxPlugin} {k0 : Kind}
    (hk0 : k0 ∈ p.depends_on.map p.dependency_kinds)
    (hno : ∀ d ∈ p.depends_on, p.dependency_kinds d = k0 → hasTime p d = false) :
    ∃ k, k ∈ p.depends_on.map p.dependency_kinds ∧
      (∀ d ∈ p.depends_on, p.dependency_kinds d = k → hasTime p d = false) ∧
      dependencies_by_kind p true = .error (timeErrMsg k) := by
  obtain ⟨hnd, hmem, hval, hK⟩ := classifyInv_main p true
  have hnotK : ∀ d, tbDep p true d = false → d ∉ (classifyFold p true).2 := by
    intro d htb hdK
    rw [hK, List.mem_filter] at hdK
    rw [htb] at hdK
    cases hdK.2
  have hfail : ∃ kv ∈ (classifyFold p true).1,
      (!((classifyFold p true).2.contains (kv.2.headD ""))) = true := by
    have hk0B : k0 ∈ ((classifyFold p true).1.map Prod.fst) := (hmem k0).mpr hk0
    obtain ⟨kv0, hkv0, hfst0⟩ := List.mem_map.mp hk0B
    refine ⟨kv0, hkv0, ?_⟩
    have ht0 : timeDepsIn p true p.depends_on k0 = [] := by
      rw [List.eq_nil_iff_forall_not_mem]
      intro d hd
      rw [mem_timeDepsIn] at hd
      have := hno d hd.1 hd.2.1
      rw [tbDep_true, this] at hd
      cases hd.2.2
    obtain ⟨d, hd, hkd⟩ := List.mem_map.mp hk0
    have hdpl : d ∈ plainDepsIn p true p.depends_on k0 :=
      mem_plainDepsIn.mpr ⟨hd, hkd, by rw [tbDep_true]; exact hno d hd hkd⟩
    have hspec : kv0.2 = plainDepsIn p true p.depends_on k0 := by
      rw [hval kv0 hkv0, hfst0, bucketSpec_no_time ht0]
    cases hpl : plainDepsIn p true p.depends_on k0 with
    | nil => rw [hpl] at hdpl; cases hdpl
    | cons d0 r =>
      have hd0 : d0 ∈ plainDepsIn p true p.depends_on k0 := by
        rw [hpl]; exact List.mem_cons_self _ _
      rw [mem_plainDepsIn] at hd0
      have hd0K : d0 ∉ (classifyFold p true).2 := hnotK d0 hd0.2.2
      have : kv0.2.headD "" = d0 := by rw [hspec, hpl]; rfl
      rw [this]
      simp [contains_iff_mem, hd0K]
  cases hfind : (classifyFold p true).1.find?
      (fun kv => !((classifyFold p true).2.contains (kv.2.headD ""))) with
  | none =>
    obtain ⟨kv, hkv, hp⟩ := hfail
    exact absurd hp (by simpa using List.find?_eq_none.mp hfind kv hkv)
  | some kv =>
    have hkvB : kv ∈ (classifyFold p true).1 := List.mem_of_find?_eq_some hfind
    have hkvp := List.find?_some hfind
    have hkvK : (classifyFold p true).2.contains (kv.2.headD "") = false := by
      simpa using hkvp
    have hkind : kv.1 ∈ p.depends_on.map p.dependency_kinds :=
      (hmem kv.1).mp (List.mem_map.mpr ⟨kv, hkvB, rfl⟩)
    have htnil : timeDepsIn p true p.depends_on kv.1 = [] := by
      by_contra htne
      obtain ⟨t, rest, hspec, htmem, _⟩ := bucketSpec_head_time htne
      have hkv2 : kv.2 = t :: rest := by rw [hval kv hkvB, hspec]
      rw [mem_timeDepsIn] at htmem
      have htK : t ∈ (classifyFold p true).2 := by
        rw [hK]
        exact List.mem_filter.mpr ⟨htmem.1, htmem.2.2⟩
      rw [hkv2] at hkvK
      have : (classifyFold p true).2.contains t = true := contains_iff_mem.mpr htK
      rw [List.headD_cons] at hkvK
      rw [this] at hkvK
      cases hkvK
    refine ⟨kv.1, hkind, ?_, ?_⟩
    · intro d hd hkd
      by_contra htd
      have : d ∈ timeDepsIn p true p.depends_on kv.1 :=
        mem_timeDepsIn.mpr ⟨hd, hkd, by rw [tbDep_true]; simpa using htd⟩
      rw [htnil] at this
      cases this
    · unfold dependencies_by_kind
      simp only [if_true, hfind]

theorem classify_ok_eq {p : StraxPlugin} {rt : Bool} {buckets : List (Kind × List Dep)}
    (h : dependencies_by_kind p rt = .ok buckets) :
    buckets = (classifyFold p rt).1 := by
  unfold dependencies_by_kind at h
  split at h
  · simp only [] at h
    split at h
    · exact Except.noConfusion h
    · injection h with h2
      exact h2.symm
  · injection h with h2
    exact h2.symm

theorem classify_ok_buckets {p : StraxPlugin} {buckets : List (Kind × List Dep)}
    (h : dependencies_by_kind p true = .ok buckets) :
    ∀ kv ∈ buckets, kv.2 = bucketSpec p true p.depends_on kv.1 := by
  obtain ⟨_, _, hval, _⟩ := classifyInv_main p true
  intro kv hkv
  exact hval kv (classify_ok_eq h ▸ hkv)

theorem classify_ok_head_time {p : StraxPlugin} {buckets : List (Kind × List Dep)}
    (h : dependencies_by_kind p true = .ok buckets) :
    ∀ kv ∈ buckets, ∀ d0 rest, kv.2 = d0 :: rest → hasTime p d0 = true := by
  obtain ⟨hnd, hmem, hval, hK⟩ := classifyInv_main p true
  have hfind : ∀ kv ∈ (classifyFold p true).1,
      (classifyFold p true).2.contains (kv.2.headD "") = true := by
    intro kv hkv
    cases hfind2 : (classifyFold p true).1.find?
        (fun kv => !((classifyFold p true).2.contains (kv.2.headD ""))) with
    | some kv2 =>
      exfalso
      unfold dependencies_by_kind at h
      simp only [if_true, hfind2] at h
      exact Except.noConfusion h
    | none =>
      simpa using List.find?_eq_none.mp hfind2 kv hkv
  intro kv hkv d0 rest hcons
  have hkvB : kv ∈ (classifyFold p true).1 := classify_ok_eq h ▸ hkv
  have := hfind kv hkvB
  rw [hcons, List.headD_cons] at this
  have hd0K : d0 ∈ (classifyFold p true).2 := contains_iff_mem.mp this
  rw [hK, List.mem_filter] at hd0K
  rw [tbDep_true] at hd0K
  exact hd0K.2

/-! ## Claim theorems about the classifier -/

/-- C1: if some kind among a plugin's dependencies has no dependency
whose schema contains a `time` field, then `dependencies_by_kind` with
`require_time` true fails with the `ValueError` naming an offending kind
(the first such kind in bucket order), and `iter` fails with the same
error regardless of the contents of the dependency iterators — i.e.
before any chunk is pulled. -/
theorem classifier_missing_time_kind_fails (p : StraxPlugin) (k0 : Kind)
    (hk0 : k0 ∈ p.depends_on.map p.dependency_kinds)
    (hno : ∀ d ∈ p.depends_on, p.dependency_kinds d = k0 → hasTime p d = false) :
    ∃ k, k ∈ p.depends_on.map p.dependency_kinds ∧
      (∀ d ∈ p.depends_on, p.dependency_kinds d = k → hasTime p d = false) ∧
      dependencies_by_kind p true = .error (timeErrMsg k) ∧
      ∀ (Chunk : Type) (C : ChunkArraysCollab Chunk) (iters : Dep → List Chunk)
        (n_per_iter : Option Nat) (hasExecutor : Bool) (fuel : Nat),
        iter C p iters n_per_iter hasExecutor fuel = .error (timeErrMsg k) := by
  obtain ⟨k, hk, hoff, herr⟩ := classify_error_of_missing_time hk0 hno
  refine ⟨k, hk, hoff, herr, ?_⟩
  intro Chunk C iters n_per_iter hasExecutor fuel
  unfold iter
  rw [herr]

/-- C2: when a kind has exactly one time-bearing dependency, the
classifier returns that dependency first in the kind's list, followed by
the kind's remaining dependencies in declaration order. -/
theorem classifier_single_time_dep_first (p : StraxPlugin)
    (buckets : List (Kind × List Dep)) (k : Kind) (l : List Dep) (d : Dep)
    (hok : dependencies_by_kind p true = .ok buckets)
    (hmem : (k, l) ∈ buckets)
    (hone : timeDepsIn p true p.depends_on k = [d]) :
    l = d :: plainDepsIn p true p.depends_on k := by
  have hspec := classify_ok_buckets hok (k, l) hmem
  simp only at hspec
  rw [hspec]
  unfold bucketSpec
  rw [hone]
  rfl

/-- C10: when a kind has two or more time-bearing dependencies, each is
inserted at the front of the kind's bucket in turn, so the bucket lists
the time-bearing dependencies in reverse declaration order — in
particular the last-declared one comes first — followed by the others in
declaration order; classification succeeds (given every kind has a
time-bearing dependency, which the offending-kind check requires). -/
theorem classifier_multiple_time_deps_last_declared_first (p : StraxPlugin) (k : Kind)
    (hall : ∀ k' ∈ p.depends_on.map p.dependency_kinds,
      ∃ d ∈ p.depends_on, p.dependency_kinds d = k' ∧ hasTime p d = true)
    (hk : k ∈ p.depends_on.map p.dependency_kinds)
    (hmulti : 2 ≤ (timeDepsIn p true p.depends_on k).length) :
    dependencies_by_kind p true = .ok (classifyFold p true).1 ∧
    ∃ l, (k, l) ∈ (classifyFold p true).1 ∧
      l = (timeDepsIn p true p.depends_on k).reverse ++ plainDepsIn p true p.depends_on k ∧
      l.head? = (timeDepsIn p true p.depends_on k).getLast? := by
  obtain ⟨hnd, hmem, hval, hK⟩ := classifyInv_main p true
  refine ⟨classify_ok_of_all_time hall, ?_⟩
  obtain ⟨kv, hkv, hfst⟩ := List.mem_map.mp ((hmem k).mpr hk)
  have htne : timeDepsIn p true p.depends_on k ≠ [] := by
    intro hc
    rw [hc] at hmulti
    exact absurd hmulti (by simp)
  obtain ⟨t, rest, hspec, _, hlast⟩ := bucketSpec_head_time htne
  refine ⟨kv.2, ?_, ?_, ?_⟩
  · rw [← hfst]
    exact hkv
  · rw [hval kv hkv, hfst]
    rfl
  · rw [hval kv hkv, hfst, hspec, hlast]
    rfl

/-- C4: with a batch-size bound, the flow-control step of `iter`
rechunks exactly the canonical (first, hence time-bearing) dependency of
the first kind group and leaves every other dependency's iterator
untouched; with no bound it rechunks nothing. -/
theorem iter_rechunks_only_first_canonical {Chunk : Type}
    (C : ChunkArraysCollab Chunk) (p : StraxPlugin) (iters : Dep → List Chunk)
    (n : Nat) (k0 : Kind) (d0 : Dep) (ds : List Dep) (rest : List (Kind × List Dep))
    (hok : dependencies_by_kind p true = .ok ((k0, d0 :: ds) :: rest)) :
    flowControl C (some n) ((k0, d0 :: ds) :: rest) iters d0
        = C.fixed_length_chunks (iters d0) n ∧
    (∀ d, d ≠ d0 → flowControl C (some n) ((k0, d0 :: ds) :: rest) iters d = iters d) ∧
    flowControl C none ((k0, d0 :: ds) :: rest) iters = iters ∧
    hasTime p d0 = true := by
  refine ⟨?_, ?_, rfl, ?_⟩
  · simp [flowControl]
  · intro d hd
    simp [flowControl, hd]
  · exact classify_ok_head_time hok (k0, d0 :: ds) (List.mem_cons_self _ _) d0 ds rfl

/-! ## The pull/compute/yield loop -/

theorem pullBatch_some_keys {Chunk : Type} :
    ∀ (ds : List Dep) (iters : Dep → List Chunk) (b : List (Dep × Chunk)),
      (pullBatch ds iters).1 = some b → b.map Prod.fst = ds := by
  intro ds
  induction ds with
  | nil =>
    intro iters b h
    simp only [pullBatch, Option.some.injEq] at h
    rw [← h]
    rfl
  | cons d rest ih =>
    intro iters b h
    cases hI : iters d with
    | nil => simp [pullBatch, hI] at h
    | cons c cs =>
      simp only [pullBatch, hI] at h
      rw [Option.map_eq_some'] at h
      obtain ⟨b2, hb2, hb⟩ := h
      rw [← hb, List.map_cons, ih _ b2 hb2]

theorem pullBatch_none_of_empty {Chunk : Type} :
    ∀ {ds : List Dep} (iters : Dep → List Chunk), ds.Nodup →
      (∃ d ∈ ds, iters d = []) → (pullBatch ds iters).1 = none := by
  intro ds
  induction ds with
  | nil =>
    rintro iters _ ⟨d, hd, _⟩
    cases hd
  | cons d rest ih =>
    rintro iters hnd ⟨d1, hd1, he1⟩
    rw [List.nodup_cons] at hnd
    cases hI : iters d with
    | nil => simp [pullBatch, hI]
    | cons c cs =>
      rcases List.mem_cons.mp hd1 with rfl | hmem
      · rw [hI] at he1
        cases he1
      · have hne : d1 ≠ d := fun hc => hnd.1 (hc ▸ hmem)
        have hrec : (pullBatch rest (fun d2 => if d2 = d then cs else iters d2)).1 = none :=
          ih _ hnd.2 ⟨d1, hmem, by simp [hne, he1]⟩
        simp [pullBatch, hI, hrec]

theorem pullBatch_some_tail {Chunk : Type} :
    ∀ {ds : List Dep} (iters : Dep → List Chunk), ds.Nodup →
      (∀ d ∈ ds, iters d ≠ []) →
      (∃ b, (pullBatch ds iters).1 = some b) ∧
      (∀ d, (pullBatch ds iters).2 d = if d ∈ ds then (iters d).tail else iters d) := by
  intro ds
  induction ds with
  | nil =>
    intro iters _ _
    refine ⟨⟨[], rfl⟩, fun d => ?_⟩
    simp [pullBatch]
  | cons d rest ih =>
    intro iters hnd hne
    rw [List.nodup_cons] at hnd
    cases hI : iters d with
    | nil => exact absurd hI (hne d (List.mem_cons_self _ _))
    | cons c cs =>
      have hne2 : ∀ d2 ∈ rest, (fun d3 => if d3 = d then cs else iters d3) d2 ≠ [] := by
        intro d2 hd2
        have hd2d : d2 ≠ d := fun hc => hnd.1 (hc ▸ hd2)
        simpa [hd2d] using hne d2 (List.mem_cons_of_mem _ hd2)
      obtain ⟨⟨b, hb⟩, htail⟩ := ih _ hnd.2 hne2
      constructor
      · exact ⟨(d, c) :: b, by simp [pullBatch, hI, hb]⟩
      · intro d2
        have hL : (pullBatch (d :: rest) iters).2
            = (pullBatch rest (fun d3 => if d3 = d then cs else iters d3)).2 := by
          simp [pullBatch, hI]
        rw [hL, htail d2]
        by_cases h1 : d2 = d
        · subst h1
          simp [hnd.1, hI]
        · by_cases h2 : d2 ∈ rest <;> simp [h1, h2]

theorem iterLoop_none {Chunk : Type} (ds : List Dep) (mp ex : Bool) (f : Nat)
    (iters : Dep → List Chunk) (h : (pullBatch ds iters).1 = none) :
    iterLoop ds mp ex (f + 1) iters = [] := by
  rcases hp : pullBatch ds iters with ⟨o, i2⟩
  rw [hp] at h
  cases o with
  | none => simp [iterLoop, hp]
  | some b => simp at h

theorem iterLoop_succ {Chunk : Type} (ds : List Dep) (mp ex : Bool) (f : Nat)
    (iters : Dep → List Chunk) {b : List (Dep × Chunk)} {i2 : Dep → List Chunk}
    (h : pullBatch ds iters = (some b, i2)) :
    iterLoop ds mp ex (f + 1) iters =
      (if mp && ex then IterOut.submitted b else IterOut.computed b) ::
        iterLoop ds mp ex f i2 := by
  simp [iterLoop, h]

theorem assembledBatches_none {Chunk : Type} (ds : List Dep) (f : Nat)
    (iters : Dep → List Chunk) (h : (pullBatch ds iters).1 = none) :
    assembledBatches ds (f + 1) iters = [] := by
  rcases hp : pullBatch ds iters with ⟨o, i2⟩
  rw [hp] at h
  cases o with
  | none => simp [assembledBatches, hp]
  | some b => simp at h

theorem assembledBatches_succ {Chunk : Type} (ds : List Dep) (f : Nat)
    (iters : Dep → List Chunk) {b : List (Dep × Chunk)} {i2 : Dep → List Chunk}
    (h : pullBatch ds iters = (some b, i2)) :
    assembledBatches ds (f + 1) iters = b :: assembledBatches ds f i2 := by
  simp [assembledBatches, h]

theorem iterLoop_length_eq {Chunk : Type} (ds : List Dep) (mp ex : Bool)
    (hnd : ds.Nodup) :
    ∀ (n fuel : Nat) (iters : Dep → List Chunk),
      (∀ d ∈ ds, n ≤ (iters d).length) →
      (∃ d ∈ ds, (iters d).length = n) →
      n ≤ fuel →
      (iterLoop ds mp ex fuel iters).length = n := by
  intro n
  induction n with
  | zero =>
    intro fuel iters _ hex _
    cases fuel with
    | zero => rfl
    | succ f =>
      obtain ⟨d, hd, h0⟩ := hex
      have hnil : iters d = [] := List.length_eq_zero.mp h0
      rw [iterLoop_none ds mp ex f iters (pullBatch_none_of_empty iters hnd ⟨d, hd, hnil⟩)]
      rfl
  | succ n ih =>
    intro fuel iters hle hex hf
    cases fuel with
    | zero => omega
    | succ f =>
      have hne : ∀ d ∈ ds, iters d ≠ [] := by
        intro d hd hc
        have := hle d hd
        rw [hc] at this
        simp at this
      obtain ⟨⟨b, hb⟩, htail⟩ := pullBatch_some_tail iters hnd hne
      have hpe : pullBatch ds iters = (some b, (pullBatch ds iters).2) := by rw [← hb]
      rw [iterLoop_succ ds mp ex f iters hpe, List.length_cons]
      have hlen : (iterLoop ds mp ex f ((pullBatch ds iters).2)).length = n := by
        apply ih f _ ?_ ?_ (by omega)
        · intro d hd
          rw [htail d, if_pos hd, List.length_tail]
          have := hle d hd
          omega
        · obtain ⟨d, hd, hlend⟩ := hex
          refine ⟨d, hd, ?_⟩
          rw [htail d, if_pos hd, List.length_tail, hlend]
          omega
      omega

theorem iterLoop_batches_complete {Chunk : Type} (ds : List Dep) (mp ex : Bool) :
    ∀ (fuel : Nat) (iters : Dep → List Chunk) (o : IterOut Chunk),
      o ∈ iterLoop ds mp ex fuel iters → o.kwargs.map Prod.fst = ds := by
  intro fuel
  induction fuel with
  | zero =>
    intro iters o h
    cases h
  | succ f ih =>
    intro iters o h
    cases hpb : (pullBatch ds iters).1 with
    | none =>
      rw [iterLoop_none ds mp ex f iters hpb] at h
      cases h
    | some b =>
      have hpe : pullBatch ds iters = (some b, (pullBatch ds iters).2) := by rw [← hpb]
      rw [iterLoop_succ ds mp ex f iters hpe] at h
      rcases List.mem_cons.mp h with rfl | hmem
      · have hkeys := pullBatch_some_keys ds iters b hpb
        cases mp <;> cases ex <;> simp [IterOut.kwargs, hkeys]
      · exact ih _ o hmem

theorem iterLoop_eq_map_assembled {Chunk : Type} (ds : List Dep) (mp ex : Bool) :
    ∀ (fuel : Nat) (iters : Dep → List Chunk),
      iterLoop ds mp ex fuel iters = (assembledBatches ds fuel iters).map
        (fun b => if mp && ex then IterOut.submitted b else IterOut.computed b) := by
  intro fuel
  induction fuel with
  | zero => intro iters; rfl
  | succ f ih =>
    intro iters
    cases hpb : (pullBatch ds iters).1 with
    | none =>
      rw [iterLoop_none ds mp ex f iters hpb, assembledBatches_none ds f iters hpb]
      rfl
    | some b =>
      have hpe : pullBatch ds iters = (some b, (pullBatch ds iters).2) := by rw [← hpb]
      rw [iterLoop_succ ds mp ex f iters hpe, assembledBatches_succ ds f iters hpe,
        List.map_cons, ih]

/-- C3: with dependencies declared (nonempty, distinct names), the
pull/compute/yield loop of `iter` emits exactly as many output items as
the shortest dependency stream allows (`n` below), provided enough fuel;
every emitted batch is complete — one chunk per declared dependency, in
declaration order — so exhaustion of any dependency during batch
assembly emits no partial batch, and the loop ends by returning the
list (normal termination, no error value). -/
theorem iter_loop_yield_count {Chunk : Type} (p : StraxPlugin)
    (iters : Dep → List Chunk) (mp ex : Bool) (n fuel : Nat)
    (hnd : p.depends_on.Nodup)
    (hle : ∀ d ∈ p.depends_on, n ≤ (iters d).length)
    (hex : ∃ d ∈ p.depends_on, (iters d).length = n)
    (hfuel : n ≤ fuel) :
    (iterLoop p.depends_on mp ex fuel iters).length = n ∧
    ∀ o ∈ iterLoop p.depends_on mp ex fuel iters,
      o.kwargs.map Prod.fst = p.depends_on :=
  ⟨iterLoop_length_eq p.depends_on mp ex hnd n fuel iters hle hex hfuel,
   fun o ho => iterLoop_batches_complete p.depends_on mp ex fuel iters o ho⟩

/-- C5: every item the loop yields is a pending executor submission
exactly when the plugin is marked `multiprocess` and an executor was
supplied, and otherwise an inline compute result; the yielded sequence
is the assembled-batch sequence in assembly order, each batch wrapped by
that same dispatch decision. -/
theorem iter_loop_dispatch_and_order {Chunk : Type} (ds : List Dep) (mp ex : Bool)
    (fuel : Nat) (iters : Dep → List Chunk) :
    iterLoop ds mp ex fuel iters
      = (assembledBatches ds fuel iters).map
          (fun b => if mp && ex then IterOut.submitted b else IterOut.computed b) ∧
    (iterLoop ds mp ex fuel iters).all
      (fun o => o.isSubmitted == (mp && ex)) = true := by
  refine ⟨iterLoop_eq_map_assembled ds mp ex fuel iters, ?_⟩
  rw [iterLoop_eq_map_assembled ds mp ex fuel iters, List.all_eq_true]
  intro o ho
  obtain ⟨b, _, rfl⟩ := List.mem_map.mp ho
  cases mp <;> cases ex <;> simp [IterOut.isSubmitted]

/-! ## LoopPlugin row assembly -/

theorem writeFields_not_mem :
    ∀ (m : List (String × Int)) (r : String → Int) (f : String),
      f ∉ m.map Prod.fst → writeFields r m f = r f := by
  intro m
  induction m with
  | nil => intro r f _; rfl
  | cons kv t ih =>
    intro r f hf
    rw [List.map_cons] at hf
    have h1 : f ≠ kv.1 := fun hc => hf (hc ▸ List.mem_cons_self _ _)
    have h2 : f ∉ t.map Prod.fst := fun hc => hf (List.mem_cons_of_mem _ hc)
    have hw : writeFields r (kv :: t)
        = writeFields (fun g => if g = kv.1 then kv.2 else r g) t := rfl
    rw [hw, ih _ f h2]
    simp [h1]

theorem writeFields_mem_nodup :
    ∀ (m : List (String × Int)) (r : String → Int) (fv : String × Int),
      (m.map Prod.fst).Nodup → fv ∈ m → writeFields r m fv.1 = fv.2 := by
  intro m
  induction m with
  | nil => intro r fv _ h; cases h
  | cons kv t ih =>
    intro r fv hnd hm
    rw [List.map_cons, List.nodup_cons] at hnd
    have hw : writeFields r (kv :: t)
        = writeFields (fun g => if g = kv.1 then kv.2 else r g) t := rfl
    rcases List.mem_cons.mp hm with rfl | hmem
    · rw [hw, writeFields_not_mem t _ fv.1 hnd.1]
      simp
    · exact ih _ fv hnd.2 hmem

theorem loopResults_length {Rec : Type}
    (cl : Rec → List (Kind × List Rec) → List (String × Int))
    (sub : List (Kind × List (List Rec))) (base : List Rec) :
    (loopResults cl sub base).length = base.length := by
  unfold loopResults
  rw [List.length_map, List.enum_length]

theorem loopResults_getD {Rec : Type}
    (cl : Rec → List (Kind × List Rec) → List (String × Int))
    (sub : List (Kind × List (List Rec))) (base : List Rec) (i : Nat)
    (hi : i < base.length) :
    (loopResults cl sub base).getD i (fun _ => 0)
      = writeFields (fun _ => 0) (cl base[i] (rowKwargs sub i)) := by
  have hlen : i < (loopResults cl sub base).length := by
    rw [loopResults_length]
    exact hi
  rw [List.getD_eq_getElem _ _ hlen]
  unfold loopResults
  simp [List.getElem_enum]

/-- C6: given the classifier succeeds and the loop kind is present, the
containment-loop compute returns one output record per base row, in
stream order; row `i` is the zero record with exactly the fields of the
`compute_loop` mapping for base row `i` written into it: unmapped fields
stay `0`, mapped fields take the callback's value. -/
theorem loop_compute_row_assembly {Rec : Type} (C : LoopCollab Rec) (p : StraxPlugin)
    (lo : Option Kind) (cl : Rec → List (Kind × List Rec) → List (String × Int))
    (kwargs : Dep → List Rec) (buckets : List (Kind × List Dep)) (base : List Rec)
    (hok : dependencies_by_kind p true = .ok buckets)
    (hbase : List.lookup (loopOverKind p lo) (thingsByKind C buckets kwargs) = some base) :
    LoopPlugin_compute C p lo cl kwargs = .ok (loopResults cl
      (splitThings C (thingsByKind C buckets kwargs) (loopOverKind p lo) base) base) ∧
    (loopResults cl
      (splitThings C (thingsByKind C buckets kwargs) (loopOverKind p lo) base)
        base).length = base.length ∧
    ∀ i, (hi : i < base.length) →
      (loopResults cl
          (splitThings C (thingsByKind C buckets kwargs) (loopOverKind p lo) base)
          base).getD i (fun _ => 0)
        = writeFields (fun _ => 0) (cl base[i]
            (rowKwargs (splitThings C (thingsByKind C buckets kwargs)
              (loopOverKind p lo) base) i)) ∧
      (∀ f, f ∉ (cl base[i]
          (rowKwargs (splitThings C (thingsByKind C buckets kwargs)
            (loopOverKind p lo) base) i)).map Prod.fst →
        (loopResults cl
          (splitThings C (thingsByKind C buckets kwargs) (loopOverKind p lo) base)
          base).getD i (fun _ => 0) f = 0) ∧
      (((cl base[i]
          (rowKwargs (splitThings C (thingsByKind C buckets kwargs)
            (loopOverKind p lo) base) i)).map Prod.fst).Nodup →
        ∀ fv ∈ cl base[i]
            (rowKwargs (splitThings C (thingsByKind C buckets kwargs)
              (loopOverKind p lo) base) i),
          (loopResults cl
            (splitThings C (thingsByKind C buckets kwargs) (loopOverKind p lo) base)
            base).getD i (fun _ => 0) fv.1 = fv.2) := by
  refine ⟨?_, loopResults_length _ _ _, ?_⟩
  · simp [LoopPlugin_compute, hok, hbase]
  · intro i hi
    have hrow := loopResults_getD cl
      (splitThings C (thingsByKind C buckets kwargs) (loopOverKind p lo) base) base i hi
    refine ⟨hrow, ?_, ?_⟩
    · intro f hf
      rw [hrow, writeFields_not_mem _ _ _ hf]
    · intro hnd fv hfv
      rw [hrow]
      exact writeFields_mem_nodup _ _ fv hnd hfv

/-! ## LoopPlugin construction (C7) -/

/-- C7 counterexample: a containment-loop plugin that declares an empty
dependency tuple (`depends_on = ()`) is accepted at construction — the
constructor only checks that the attribute exists — so construction does
not fail for every plugin declaring fewer than one dependency. -/
theorem loop_init_accepts_empty_depends_on :
    LoopPlugin_init (some []) = .ok [] := rfl

/-- C7 amended: `LoopPlugin` construction fails, with the
mandatory-attribute configuration error and before any stream is built,
exactly when the plugin has no `depends_on` declaration at all; any
declared list — even an empty one — is accepted. -/
theorem loop_init_fails_iff_no_attr :
    LoopPlugin_init none = .error "depends_on is mandatory for LoopPlugin" ∧
    ∀ ds, LoopPlugin_init (some ds) = .ok ds :=
  ⟨rfl, fun _ => rfl⟩

/-! ## MergePlugin (C8, C9) -/

theorem showBucket_starts_with_kind (kv : Kind × List Dep) :
    kv.1.data <+: (showBucket kv).data := by
  unfold showBucket
  simp only [String.data_append, List.append_assoc]
  exact ⟨_, rfl⟩

theorem showBuckets_cons_cons (kv kv2 : Kind × List Dep) (rt : List (Kind × List Dep)) :
    showBuckets (kv :: kv2 :: rt) = showBucket kv ++ ", " ++ showBuckets (kv2 :: rt) := rfl

theorem showBuckets_mem_substring :
    ∀ (bs : List (Kind × List Dep)) (kv : Kind × List Dep), kv ∈ bs →
      kv.1.data <:+: (showBuckets bs).data := by
  intro bs
  induction bs with
  | nil => intro kv h; cases h
  | cons hd rest ih =>
    intro kv h
    rcases List.mem_cons.mp h with rfl | hmem
    · cases rest with
      | nil =>
        obtain ⟨t, ht⟩ := showBucket_starts_with_kind kv
        exact ⟨[], t, by simpa using ht⟩
      | cons kv2 rt =>
        rw [showBuckets_cons_cons]
        obtain ⟨t, ht⟩ := showBucket_starts_with_kind kv
        refine ⟨[], t ++ (", " ++ showBuckets (kv2 :: rt)).data, ?_⟩
        simp only [List.nil_append, String.data_append, ← List.append_assoc, ht]
    · cases rest with
      | nil => cases hmem
      | cons kv2 rt =>
        rw [showBuckets_cons_cons]
        obtain ⟨s, t, hst⟩ := ih kv hmem
        refine ⟨(showBucket hd ++ ", ").data ++ s, t, ?_⟩
        rw [String.data_append, String.data_append]
        rw [← hst]
        simp [List.append_assoc]

/-- C8: when the dependencies of a merge plugin classify into more than
one kind, `infer_dtype` fails with the multiple-kinds `ValueError`,
whose message carries the rendered kind groups — each offending kind
name occurs in it. `infer_dtype` is pure schema inference and consumes
no chunk stream. -/
theorem merge_multi_kind_error (p : StraxPlugin) (buckets : List (Kind × List Dep))
    (hok : dependencies_by_kind p true = .ok buckets)
    (hmulti : 1 < buckets.length) :
    MergePlugin_infer_dtype p = .error (mergeErrMsg buckets) ∧
    ∀ kv ∈ buckets, kv.1.data <:+: (mergeErrMsg buckets).data := by
  constructor
  · have hne : buckets.length ≠ 1 := by omega
    simp [MergePlugin_infer_dtype, hok, hne]
  · intro kv hkv
    obtain ⟨s, t, hst⟩ := showBuckets_mem_substring buckets kv hkv
    unfold mergeErrMsg
    rw [String.data_append]
    refine ⟨("MergePlugins can only merge data of the same kind, but got multiple kinds: " : String).data ++ s, t, ?_⟩
    rw [← hst]
    simp [List.append_assoc]

/-- C9: when the dependencies of a merge plugin classify into exactly
one kind, `infer_dtype` returns the concatenation, in declared
dependency order, of each dependency's unpacked field list. -/
theorem merge_single_kind_schema_concat (p : StraxPlugin)
    (buckets : List (Kind × List Dep))
    (hok : dependencies_by_kind p true = .ok buckets)
    (hone : buckets.length = 1) :
    MergePlugin_infer_dtype p
      = .ok (p.depends_on.map (fun d => unpack_dtype (p.dependency_dtypes d))).flatten := by
  simp [MergePlugin_infer_dtype, hok, hone]

/-! ## Witnesses: the claim theorems evaluated on concrete instances -/

/-- C1 witness: `pluginNoTimeKind` at offending kind `k2`. -/
theorem classifier_missing_time_kind_fails_witness :
    ∃ k, k ∈ pluginNoTimeKind.depends_on.map pluginNoTimeKind.dependency_kinds ∧
      (∀ d ∈ pluginNoTimeKind.depends_on,
        pluginNoTimeKind.dependency_kinds d = k → hasTime pluginNoTimeKind d = false) ∧
      dependencies_by_kind pluginNoTimeKind true = .error (timeErrMsg k) ∧
      ∀ (Chunk : Type) (C : ChunkArraysCollab Chunk) (iters : Dep → List Chunk)
        (n_per_iter : Option Nat) (hasExecutor : Bool) (fuel : Nat),
        iter C pluginNoTimeKind iters n_per_iter hasExecutor fuel
          = .error (timeErrMsg k) :=
  classifier_missing_time_kind_fails pluginNoTimeKind "k2" (by decide) (by decide)

/-- C2 witness: `pluginOneTime`, whose single time-bearing dependency is
declared second of three. -/
theorem classifier_single_time_dep_first_witness :
    ("k", ["t", "a", "b"]) ∈ [("k", ["t", "a", "b"])] ∧
    ["t", "a", "b"]
      = "t" :: plainDepsIn pluginOneTime true pluginOneTime.depends_on "k" :=
  ⟨by decide,
   classifier_single_time_dep_first pluginOneTime [("k", ["t", "a", "b"])] "k"
     ["t", "a", "b"] "t" rfl (by decide) rfl⟩

/-- C10 witness: `pluginTwoTimes`, with time-bearing dependencies
declared first and last. -/
theorem classifier_multiple_time_deps_last_declared_first_witness :
    dependencies_by_kind pluginTwoTimes true = .ok (classifyFold pluginTwoTimes true).1 ∧
    ∃ l, ("k", l) ∈ (classifyFold pluginTwoTimes true).1 ∧
      l = (timeDepsIn pluginTwoTimes true pluginTwoTimes.depends_on "k").reverse
          ++ plainDepsIn pluginTwoTimes true pluginTwoTimes.depends_on "k" ∧
      l.head? = (timeDepsIn pluginTwoTimes true pluginTwoTimes.depends_on "k").getLast? :=
  classifier_multiple_time_deps_last_declared_first pluginTwoTimes "k"
    (by decide) (by decide) (by decide)

/-- C4 witness: `pluginA` with trivial collaborators. -/
theorem iter_rechunks_only_first_canonical_witness :
    flowControl collabNat (some 3) [("k", ["a"])] itersAB "a"
        = collabNat.fixed_length_chunks (itersAB "a") 3 ∧
    (∀ d, d ≠ "a" → flowControl collabNat (some 3) [("k", ["a"])] itersAB d = itersAB d) ∧
    flowControl collabNat none [("k", ["a"])] itersAB = itersAB ∧
    hasTime pluginA "a" = true :=
  iter_rechunks_only_first_canonical collabNat pluginA itersAB 3 "k" "a" [] [] rfl

/-- C3 witness: `pluginAB` with iterators of lengths 2 and 3 yields
exactly 2 complete batches. -/
theorem iter_loop_yield_count_witness :
    (iterLoop pluginAB.depends_on false false 5 itersAB).length = 2 ∧
    ∀ o ∈ iterLoop pluginAB.depends_on false false 5 itersAB,
      o.kwargs.map Prod.fst = pluginAB.depends_on :=
  iter_loop_yield_count pluginAB itersAB false false 2 5
    (by decide) (by decide) (by decide) (by decide)

/-- C6 witness: `pluginA` with two base rows. -/
theorem loop_compute_row_assembly_witness :
    dependencies_by_kind pluginA true = .ok [("k", ["a"])] ∧
    List.lookup (loopOverKind pluginA none)
      (thingsByKind loopCollabInt [("k", ["a"])] kwargsA) = some [5, 7] ∧
    (loopResults clW
      (splitThings loopCollabInt (thingsByKind loopCollabInt [("k", ["a"])] kwargsA)
        (loopOverKind pluginA none) [5, 7]) [5, 7]).length = 2 := by
  have h := loop_compute_row_assembly loopCollabInt pluginA none clW kwargsA
    [("k", ["a"])] [5, 7] rfl rfl
  exact ⟨rfl, rfl, by rw [h.2.1]; rfl⟩

/-- C8 witness: `pluginTwoKindsTime` classifies into two kinds and
`infer_dtype` fails naming both. -/
theorem merge_multi_kind_error_witness :
    MergePlugin_infer_dtype pluginTwoKindsTime
        = .error (mergeErrMsg [("k1", ["a"]), ("k2", ["b"])]) ∧
    ∀ kv ∈ [("k1", ["a"]), ("k2", ["b"])],
      (kv : Kind × List Dep).1.data
        <:+: (mergeErrMsg [("k1", ["a"]), ("k2", ["b"])]).data :=
  merge_multi_kind_error pluginTwoKindsTime [("k1", ["a"]), ("k2", ["b"])]
    rfl (by decide)

/-- C9 witness: field lists (time, a) then (b) concatenate in declared
order. -/
theorem merge_single_kind_schema_concat_witness :
    MergePlugin_infer_dtype pluginMergeTwo
      = .ok [("time", "i8"), ("a", "f8"), ("b", "f8")] := by
  have h := merge_single_kind_schema_concat pluginMergeTwo [("k", ["u", "v"])]
    rfl (by decide)
  rw [h]
  rfl
